import Mathlib

/-!
Shallow embedding of the request-authentication and order-normalization
pipeline of the `int-quoter` repository
(`src/app/routes/orders.jsx`, duplicated verifier in `src/app/routes/proxy.$.jsx`).

Conventions of the embedding:
* `URLSearchParams` is modelled as `List (String × String)` in insertion order
  (duplicate keys preserved; `get` returns the first occurrence; `delete`
  removes every occurrence).
* JavaScript values reaching `parseOrderData` are modelled by the inductive
  `JSValue`; a thrown `TypeError`/`SyntaxError` is modelled by `Except.error`.
* Machine words of SHA-256 are `Nat` reduced with `% 4294967296`; bytes are
  `Nat` reduced with `% 256`.
* An absent shared secret and the empty secret are both modelled as `""`,
  since `if (!sharedSecret)` treats exactly `undefined` and `""` as falsy
  for this configuration string.
-/

/-! ## Collation model for `String.prototype.localeCompare`

The source sorts candidate keys with the comparator
`([a], [b]) => a.localeCompare(b)`.  Under Node's default (ICU root) locale,
ASCII strings compare by a primary level that orders
punctuation < digits < letters with letters case-insensitive, and ties are
broken by a tertiary level where lowercase precedes uppercase
(e.g. `"a".localeCompare("B") === -1` although `"B" < "a"` byte-wise).
The model below reproduces that two-level comparison for ASCII strings;
non-ASCII characters get fallback weights after the ASCII range. -/

/-- Lowercased code point of an ASCII letter (identity elsewhere). -/
def lowerCode (c : Char) : Nat :=
  if 65 ≤ c.toNat ∧ c.toNat ≤ 90 then c.toNat + 32 else c.toNat

/-- Whether `c` is an ASCII uppercase letter. -/
def isUpperAscii (c : Char) : Bool :=
  65 ≤ c.toNat && c.toNat ≤ 90

/-- Whether `c` is an ASCII letter. -/
def isAsciiLetter (c : Char) : Bool :=
  isUpperAscii c || (97 ≤ c.toNat && c.toNat ≤ 122)

/-- Primary collation weight of a character under the root locale:
ASCII punctuation and space keep their code points, digits come next,
letters after digits (case-insensitively), and all other characters
after the ASCII range. -/
def charPrimary (c : Char) : Nat :=
  if c.isDigit then 1000 + c.toNat
  else if isAsciiLetter c then 2000 + lowerCode c
  else if c.toNat < 128 then c.toNat
  else 3000 + c.toNat

/-- Tertiary collation weight: uppercase letters sort after their
lowercase counterparts when the primary level ties. -/
def charTertiary (c : Char) : Nat :=
  if isUpperAscii c then 1 else 0

/-- Lexicographic comparison of two weight sequences. -/
def ordNats : List Nat → List Nat → Ordering
  | [], [] => .eq
  | [], _ :: _ => .lt
  | _ :: _, [] => .gt
  | x :: xs, y :: ys =>
    if x < y then .lt else if y < x then .gt else ordNats xs ys

/-- Primary collation key of a string. -/
def primaryKey (s : String) : List Nat := s.data.map charPrimary

/-- Tertiary collation key of a string. -/
def tertiaryKey (s : String) : List Nat := s.data.map charTertiary

/-- Two-level root-locale comparison: primary weights first, then
tertiary weights on a primary tie. -/
def localeOrd (a b : String) : Ordering :=
  match ordNats (primaryKey a) (primaryKey b) with
  | .eq => ordNats (tertiaryKey a) (tertiaryKey b)
  | o => o

/-- Model of `a.localeCompare(b)`: negative, zero or positive. -/
def localeCompare (a b : String) : Int :=
  match localeOrd a b with
  | .lt => -1
  | .eq => 0
  | .gt => 1

/-! ## The sort of `Array.prototype.sort(([a],[b]) => a.localeCompare(b))`

`Array.prototype.sort` is specified to be stable, and a stable sort with a
consistent comparator has a unique result, so any stable sorting algorithm
is extensionally the one of the source.  A stable insertion sort is used:
a later-inserted element `x` passes an element `y` only when `y` compares
strictly below `x`, so elements whose keys tie keep their input order. -/

/-- Stable insertion of a pair into a sorted list of pairs,
ordering by `localeCompare` on the keys only. -/
def insertPair (x : String × String) : List (String × String) → List (String × String)
  | [] => [x]
  | y :: ys => if localeCompare y.1 x.1 < 0 then y :: insertPair x ys else x :: y :: ys

/-- Stable sort of the parameter pairs by `localeCompare` on keys:
the model of `.sort(([a], [b]) => a.localeCompare(b))`. -/
def sortPairs : List (String × String) → List (String × String)
  | [] => []
  | x :: xs => insertPair x (sortPairs xs)

/-- Model of `.map(([key, value]) => ` the string `key=value` `)`. -/
def pairString (p : String × String) : String := p.1 ++ "=" ++ p.2

/-- Model of `.join("")` on an array of strings. -/
def concatStrings : List String → String
  | [] => ""
  | s :: rest => s ++ concatStrings rest

/-- Serialization of an (already signature-free) candidate parameter list:
sort by key with `localeCompare`, render `key=value`, join with no separator. -/
def serializeSorted (ps : List (String × String)) : String :=
  concatStrings ((sortPairs ps).map pairString)

/-- Model of `params.delete("signature")`: every occurrence is removed. -/
def removeSignatureParam (ps : List (String × String)) : List (String × String) :=
  ps.filter (fun p => p.1 != "signature")

/-- The `sortedParams` string of `verifyShopifyRequest` (lines 30–33):
candidate set with `signature` removed, sorted, rendered and joined. -/
def sortedSerialization (ps : List (String × String)) : String :=
  serializeSorted (removeSignatureParam ps)

/-! ## SHA-256 and HMAC-SHA256

Model of `crypto.createHmac("sha256", sharedSecret).update(sortedParams).digest("hex")`.
Strings are encoded to UTF-8 bytes as Node does for string inputs.
Words are `Nat` kept below `2^32` by explicit `% 4294967296`. -/

/-- Round constants of SHA-256 (first 32 bits of the fractional parts of the
cube roots of the first 64 primes). -/
def sha256K : List Nat :=
  [1116352408, 1899447441, 3049323471, 3921009573, 961987163,
   1508970993, 2453635748, 2870763221, 3624381080, 310598401,
   607225278, 1426881987, 1925078388, 2162078206, 2614888103,
   3248222580, 3835390401, 4022224774, 264347078, 604807628,
   770255983, 1249150122, 1555081692, 1996064986, 2554220882,
   2821834349, 2952996808, 3210313671, 3336571891, 3584528711,
   113926993, 338241895, 666307205, 773529912, 1294757372,
   1396182291, 1695183700, 1986661051, 2177026350, 2456956037,
   2730485921, 2820302411, 3259730800, 3345764771, 3516065817,
   3600352804, 4094571909, 275423344, 430227734, 506948616,
   659060556, 883997877, 958139571, 1322822218, 1537002063,
   1747873779, 1955562222, 2024104815, 2227730452, 2361852424,
   2428436474, 2756734187, 3204031479, 3329325298]

/-- Right rotation of a 32-bit word stored as a `Nat` below `2^32`. -/
def rotr32 (n x : Nat) : Nat := x / 2 ^ n + x % 2 ^ n * 2 ^ (32 - n)

/-- Choice function of SHA-256 (`(e & f) ^ (~e & g)` on 32-bit words). -/
def chFun (e f g : Nat) : Nat := (e &&& f) ^^^ ((4294967295 - e) &&& g)

/-- Majority function of SHA-256. -/
def majFun (a b c : Nat) : Nat := (a &&& b) ^^^ (a &&& c) ^^^ (b &&& c)

/-- Small sigma-0 of the message schedule. -/
def smallSigma0 (w : Nat) : Nat := rotr32 7 w ^^^ rotr32 18 w ^^^ w / 2 ^ 3

/-- Small sigma-1 of the message schedule. -/
def smallSigma1 (w : Nat) : Nat := rotr32 17 w ^^^ rotr32 19 w ^^^ w / 2 ^ 10

/-- Big sigma-0 of the compression rounds. -/
def bigSigma0 (a : Nat) : Nat := rotr32 2 a ^^^ rotr32 13 a ^^^ rotr32 22 a

/-- Big sigma-1 of the compression rounds. -/
def bigSigma1 (e : Nat) : Nat := rotr32 6 e ^^^ rotr32 11 e ^^^ rotr32 25 e

/-- Working state of SHA-256: eight 32-bit words. -/
structure Hash8 where
  a : Nat
  b : Nat
  c : Nat
  d : Nat
  e : Nat
  f : Nat
  g : Nat
  h : Nat

/-- Extends a 16-word block schedule by `k` further words. -/
def extendSchedule : Nat → List Nat → List Nat
  | 0, ws => ws
  | k + 1, ws =>
    let n := ws.length
    let w := (smallSigma1 (ws.getD (n - 2) 0) + ws.getD (n - 7) 0 +
              smallSigma0 (ws.getD (n - 15) 0) + ws.getD (n - 16) 0) % 4294967296
    extendSchedule k (ws ++ [w])

/-- One compression round, consuming a `(round constant, schedule word)` pair. -/
def roundStep (st : Hash8) (kw : Nat × Nat) : Hash8 :=
  let t1 := (st.h + bigSigma1 st.e + chFun st.e st.f st.g + kw.1 + kw.2) % 4294967296
  let t2 := (bigSigma0 st.a + majFun st.a st.b st.c) % 4294967296
  ⟨(t1 + t2) % 4294967296, st.a, st.b, st.c, (st.d + t1) % 4294967296, st.e, st.f, st.g⟩

/-- Compression of one 16-word block into the running hash state. -/
def compressBlock (st : Hash8) (block : List Nat) : Hash8 :=
  let w := extendSchedule 48 block
  let r := (sha256K.zip w).foldl roundStep st
  ⟨(st.a + r.a) % 4294967296, (st.b + r.b) % 4294967296,
   (st.c + r.c) % 4294967296, (st.d + r.d) % 4294967296,
   (st.e + r.e) % 4294967296, (st.f + r.f) % 4294967296,
   (st.g + r.g) % 4294967296, (st.h + r.h) % 4294967296⟩

/-- Initial hash value of SHA-256. -/
def sha256Init : Hash8 :=
  ⟨1779033703, 3144134277, 1013904242, 2773480762,
   1359893119, 2600822924, 528734635, 1541459225⟩

/-- Big-endian 64-bit length field of the padding, as eight bytes. -/
def lengthBytes8 (n : Nat) : List Nat :=
  [n / 2 ^ 56 % 256, n / 2 ^ 48 % 256, n / 2 ^ 40 % 256, n / 2 ^ 32 % 256,
   n / 2 ^ 24 % 256, n / 2 ^ 16 % 256, n / 2 ^ 8 % 256, n % 256]

/-- SHA-256 padding: a `0x80` byte, zeros to 56 mod 64, and the bit length. -/
def padBytes (msg : List Nat) : List Nat :=
  msg ++ 128 :: List.replicate ((119 - msg.length % 64) % 64) 0 ++
    lengthBytes8 (msg.length * 8)

/-- Groups bytes into big-endian 32-bit words. -/
def bytesToWords : List Nat → List Nat
  | a :: b :: c :: d :: rest =>
    (a % 256 * 16777216 + b % 256 * 65536 + c % 256 * 256 + d % 256) :: bytesToWords rest
  | _ => []

/-- Groups words into 16-word blocks. -/
def wordBlocks : List Nat → List (List Nat)
  | w0 :: w1 :: w2 :: w3 :: w4 :: w5 :: w6 :: w7 ::
    w8 :: w9 :: w10 :: w11 :: w12 :: w13 :: w14 :: w15 :: rest =>
    [w0, w1, w2, w3, w4, w5, w6, w7, w8, w9, w10, w11, w12, w13, w14, w15] ::
      wordBlocks rest
  | _ => []

/-- Big-endian bytes of a 32-bit word. -/
def wordToBytes (w : Nat) : List Nat :=
  [w / 16777216 % 256, w / 65536 % 256, w / 256 % 256, w % 256]

/-- Serializes the final hash state into 32 digest bytes. -/
def hashBytes (st : Hash8) : List Nat :=
  wordToBytes st.a ++ wordToBytes st.b ++ wordToBytes st.c ++ wordToBytes st.d ++
  wordToBytes st.e ++ wordToBytes st.f ++ wordToBytes st.g ++ wordToBytes st.h

/-- SHA-256 of a byte sequence. -/
def sha256 (msg : List Nat) : List Nat :=
  hashBytes ((wordBlocks (bytesToWords (padBytes msg))).foldl compressBlock sha256Init)

/-- HMAC-SHA256 over byte sequences (block size 64). -/
def hmacSha256 (key msg : List Nat) : List Nat :=
  let k0 := if 64 < key.length then sha256 key else key
  let kp := k0 ++ List.replicate (64 - k0.length) 0
  sha256 ((kp.map (fun b => b ^^^ 92)) ++ sha256 ((kp.map (fun b => b ^^^ 54)) ++ msg))

/-- UTF-8 encoding of one character, as Node encodes string inputs. -/
def utf8Bytes (c : Char) : List Nat :=
  let n := c.toNat
  if n < 128 then [n]
  else if n < 2048 then [192 + n / 64, 128 + n % 64]
  else if n < 65536 then [224 + n / 4096, 128 + n / 64 % 64, 128 + n % 64]
  else [240 + n / 262144, 128 + n / 4096 % 64, 128 + n / 64 % 64, 128 + n % 64]

/-- UTF-8 bytes of a string. -/
def strBytes (s : String) : List Nat := (s.data.map utf8Bytes).flatten

/-- Digest bytes folded into one natural number (most significant byte first). -/
def natOfBytes (l : List Nat) : Nat := l.foldl (fun acc b => acc * 256 + b % 256) 0

/-- HMAC-SHA256 digest of string key and string message, as a 256-bit number. -/
def hmacNat (key msg : String) : Nat := natOfBytes (hmacSha256 (strBytes key) (strBytes msg))

/-- Lowercase hexadecimal digit. -/
def hexDigitChar (n : Nat) : Char := Char.ofNat (if n < 10 then 48 + n else 87 + n)

/-- Fixed-width lowercase hexadecimal rendering (most significant digit first). -/
def hexChars : Nat → Nat → List Char
  | 0, _ => []
  | k + 1, n => hexChars k (n / 16) ++ [hexDigitChar (n % 16)]

/-- Model of `.digest("hex")` of the HMAC: 64 lowercase hex digits. -/
def hmacHex (key msg : String) : String := String.mk (hexChars 64 (hmacNat key msg))

/-! ## The signature verifier

`verifyShopifyRequest(searchParams, sharedSecret)` of
`src/app/routes/orders.jsx` lines 11–51 (identical in `proxy.$.jsx`). -/

/-- Model of `verifyShopifyRequest`: reject an unconfigured (empty) secret,
reject a missing or empty `signature` parameter, then compare the received
signature with the hex HMAC-SHA256 of the sorted serialization by exact
string equality. -/
def verifyShopifyRequest (searchParams : List (String × String)) (sharedSecret : String) : Bool :=
  if sharedSecret = "" then false
  else
    match List.lookup "signature" searchParams with
    | none => false
    | some signature =>
      if signature = "" then false
      else hmacHex sharedSecret (sortedSerialization searchParams) == signature

/-! ## JavaScript value model for the payload side

`parseOrderData` receives whatever the body parsing produced: a JSON value,
a form-data object of string fields, or a raw text string.  `JSValue`
models those values; `Except.error ()` models a thrown `TypeError` or
`SyntaxError`. -/

/-- JavaScript values reaching the normalizer.  JSON numbers are modelled as
integers; no claim depends on fractional numeric values. -/
inductive JSValue where
  | undefined : JSValue
  | null : JSValue
  | bool : Bool → JSValue
  | num : Int → JSValue
  | str : String → JSValue
  | arr : List JSValue → JSValue
  | obj : List (String × JSValue) → JSValue

/-- JavaScript truthiness of a modelled value. -/
def jsTruthy : JSValue → Bool
  | .undefined => false
  | .null => false
  | .bool b => b
  | .num n => n != 0
  | .str s => s != ""
  | .arr _ => true
  | .obj _ => true

/-- Property access `v[key]` for the payload field names of `parseOrderData`.
Access on `null` or `undefined` throws a `TypeError`; objects look the key
up (first binding) and yield `undefined` when absent; primitives and arrays
yield `undefined` for these non-index keys. -/
def getField (v : JSValue) (key : String) : Except Unit JSValue :=
  match v with
  | .undefined => .error ()
  | .null => .error ()
  | .obj fields => .ok ((List.lookup key fields).getD .undefined)
  | _ => .ok .undefined

/-- The value of a field of a non-throwing payload (defaulting `undefined`). -/
def jsField (v : JSValue) (key : String) : JSValue :=
  match getField v key with
  | .ok w => w
  | .error _ => .undefined

/-! ## JSON.parse model

`JSON.parse(orderData.cart_line_items)` first coerces its argument to a
string.  For string arguments the grammar below is parsed (literals,
integers, strings without escape sequences, arrays, objects); numbers with
fractions or exponents and escaped strings are rejected by the model, which
no claim depends on.  Number, boolean and null arguments coerce to strings
that re-parse to themselves; array and object coercions are modelled as
parse failures (a failure is caught by the surrounding `try` either way). -/

/-- Opening brace character. -/
def lbraceChar : Char := Char.ofNat 123

/-- Closing brace character. -/
def rbraceChar : Char := Char.ofNat 125

/-- Skips JSON whitespace. -/
def skipWs (cs : List Char) : List Char :=
  cs.dropWhile (fun c => c == ' ' || c == '\n' || c == '\t' || c == '\r')

/-- Numeric value of a digit run (the model of `parseInt` on a `\d+` match,
and of JSON integer literals). -/
def digitsVal (ds : List Char) : Nat :=
  ds.foldl (fun acc c => acc * 10 + (c.toNat - 48)) 0

/-- Rejects numbers continuing with a fraction or exponent (unsupported by
the model). -/
def jsonNumCont (cs : List Char) : Bool :=
  match cs with
  | c :: _ => c == '.' || c == 'e' || c == 'E'
  | [] => false

mutual

/-- Parses one JSON value; the fuel bounds recursion depth. -/
def parseJsonVal : Nat → List Char → Option (JSValue × List Char)
  | 0, _ => none
  | fuel + 1, cs =>
    match skipWs cs with
    | [] => none
    | c :: rest =>
      if c == 'n' then
        match rest with
        | 'u' :: 'l' :: 'l' :: r => some (.null, r)
        | _ => none
      else if c == 't' then
        match rest with
        | 'r' :: 'u' :: 'e' :: r => some (.bool true, r)
        | _ => none
      else if c == 'f' then
        match rest with
        | 'a' :: 'l' :: 's' :: 'e' :: r => some (.bool false, r)
        | _ => none
      else if c == '"' then
        let body := rest.takeWhile (fun ch => ch != '"')
        if body.any (fun ch => ch == '\\') then none
        else
          match rest.dropWhile (fun ch => ch != '"') with
          | '"' :: r => some (.str (String.mk body), r)
          | _ => none
      else if c == '-' then
        let ds := rest.takeWhile Char.isDigit
        let r := rest.dropWhile Char.isDigit
        if ds.isEmpty then none
        else if jsonNumCont r then none
        else some (.num (-(Int.ofNat (digitsVal ds))), r)
      else if c.isDigit then
        let ds := (c :: rest).takeWhile Char.isDigit
        let r := (c :: rest).dropWhile Char.isDigit
        if jsonNumCont r then none
        else some (.num (Int.ofNat (digitsVal ds)), r)
      else if c == '[' then
        match skipWs rest with
        | ']' :: r => some (.arr [], r)
        | _ => parseJsonElems fuel rest [] 
      else if c == lbraceChar then
        match skipWs rest with
        | d :: r => if d == rbraceChar then some (.obj [], r) else parseJsonMembers fuel rest []
        | [] => none
      else none

/-- Parses the comma-separated elements of a JSON array. -/
def parseJsonElems : Nat → List Char → List JSValue → Option (JSValue × List Char)
  | 0, _, _ => none
  | fuel + 1, cs, acc =>
    match parseJsonVal fuel cs with
    | none => none
    | some (v, rest) =>
      match skipWs rest with
      | ',' :: r => parseJsonElems fuel r (acc ++ [v])
      | ']' :: r => some (.arr (acc ++ [v]), r)
      | _ => none

/-- Parses the comma-separated members of a JSON object. -/
def parseJsonMembers : Nat → List Char → List (String × JSValue) →
    Option (JSValue × List Char)
  | 0, _, _ => none
  | fuel + 1, cs, acc =>
    match skipWs cs with
    | '"' :: rest =>
      let body := rest.takeWhile (fun ch => ch != '"')
      if body.any (fun ch => ch == '\\') then none
      else
        match rest.dropWhile (fun ch => ch != '"') with
        | '"' :: afterKey =>
          match skipWs afterKey with
          | ':' :: afterColon =>
            match parseJsonVal fuel afterColon with
            | none => none
            | some (v, rest2) =>
              match skipWs rest2 with
              | ',' :: r => parseJsonMembers fuel r (acc ++ [(String.mk body, v)])
              | d :: r =>
                if d == rbraceChar then some (.obj (acc ++ [(String.mk body, v)]), r)
                else none
              | [] => none
          | _ => none
        | _ => none
    | _ => none

end

/-- JSON.parse of a string: a single value followed only by whitespace. -/
def jsonParseStr (s : String) : Except Unit JSValue :=
  match parseJsonVal (s.length + 1) s.data with
  | some (v, rest) => if (skipWs rest).isEmpty then .ok v else .error ()
  | none => .error ()

/-- JSON.parse applied to an arbitrary value, modelling the string coercion
of the argument. -/
def jsonParseJS : JSValue → Except Unit JSValue
  | .str s => jsonParseStr s
  | .num n => .ok (.num n)
  | .bool b => .ok (.bool b)
  | .null => .ok .null
  | .undefined => .error ()
  | .arr _ => .error ()
  | .obj _ => .error ()

/-! ## Line items and cart parsing -/

/-- A line item as built by `parseOrderData`/`parseCartText`:
`{ variantId: ..., quantity: ... }` with whatever values the source
expressions produced (possibly `undefined`). -/
structure LineItemJS where
  variantId : JSValue
  quantity : JSValue

/-- Maps one parsed JSON entry through
`(item) => ({ variantId: item.variantId, quantity: item.quantity })`;
property access on a `null`/`undefined` entry throws. -/
def readLineItem (v : JSValue) : Except Unit LineItemJS := do
  let vid ← getField v "variantId"
  let q ← getField v "quantity"
  .ok ⟨vid, q⟩

/-- Model of `lineItems.map((item) => ...)`: calling `.map` on a non-array
throws a `TypeError`; otherwise each entry is read in order and the first
throwing entry aborts. -/
def mapLineItems : JSValue → Except Unit (List LineItemJS)
  | .arr items => items.mapM readLineItem
  | _ => .error ()

/-- The multiplication marker scanned for by `parseCartText`. -/
def timesChar : Char := '×'

/-- JavaScript `\s` restricted to the ASCII whitespace characters
(sufficient for the cart lines this code scans; lines contain no `\n`). -/
def isJsSpace (c : Char) : Bool :=
  c == ' ' || c.toNat == 9 || c.toNat == 11 || c.toNat == 12 || c.toNat == 13

/-- Model of `line.match(/(\d+)\s*×/)`, returning the captured integer of
the leftmost match.  At each start position the regex can only succeed on
the maximal digit run (a shortened run leaves a digit, which neither `\s*`
nor `×` accepts), so the scan tries the maximal run and otherwise advances
one character, exactly the leftmost-match semantics. -/
def qtyScan : List Char → Option Nat
  | [] => none
  | c :: rest =>
    if c.isDigit then
      match (c :: rest).dropWhile Char.isDigit |>.dropWhile isJsSpace with
      | d :: _ =>
        if d == timesChar then some (digitsVal ((c :: rest).takeWhile Char.isDigit))
        else qtyScan rest
      | [] => qtyScan rest
    else qtyScan rest

/-- The fixed fallback product identifier of `parseCartText`. -/
def defaultVariantId : String := "gid://shopify/ProductVariant/49457743036715"

/-- Splits a character sequence at every newline, the model of
`cartText.split("\n")` (a trailing newline yields a final empty line, and
the empty string yields one empty line, exactly as in JavaScript). -/
def splitLines (cs : List Char) : List (List Char) :=
  match cs with
  | [] => [[]]
  | c :: rest =>
    if c == '\n' then [] :: splitLines rest
    else
      match splitLines rest with
      | l :: ls => (c :: l) :: ls
      | [] => [[c]]

/-- Model of `line.includes(ch)` for a one-character needle. -/
def lineHasChar (line : List Char) (ch : Char) : Bool :=
  line.any (fun c => c == ch)

/-- Model of `parseCartText` on an actual string (lines 158–174): return
`[]` for a falsy (empty) string, keep the lines containing both `×` and
`$`, and map each to a line item with the fallback identifier and the
matched quantity (default 1). -/
def parseCartText (cartText : String) : List LineItemJS :=
  if cartText = "" then []
  else
    ((splitLines cartText.data).filter
        (fun line => lineHasChar line timesChar && lineHasChar line '$')).map
      (fun line => ⟨.str defaultVariantId, .num (Int.ofNat ((qtyScan line).getD 1))⟩)

/-- `parseCartText` applied to an arbitrary value: a falsy argument returns
`[]` before any string method is used; a truthy non-string throws on
`.split`. -/
def parseCartTextJS (v : JSValue) : Except Unit (List LineItemJS) :=
  if jsTruthy v then
    match v with
    | .str s => .ok (parseCartText s)
    | _ => .error ()
  else .ok []

/-! ## Order data normalization -/

/-- The `orderData` object of `parseOrderData`: the ten extracted payload
fields plus the optionally assigned `lineItems` (left `none` when the
source leaves the property undefined). -/
structure OrderData where
  email : JSValue
  full_name : JSValue
  shipping_address1 : JSValue
  shipping_city : JSValue
  shipping_province : JSValue
  shipping_country : JSValue
  shipping_zip : JSValue
  cart : JSValue
  cart_line_items : JSValue
  cart_total : JSValue
  lineItems : Option (List LineItemJS)

/-- Model of `parseOrderData` (lines 117–151): extract the `quote[...]`
fields, then derive `lineItems` — from the structured JSON field when it is
truthy and parsing plus mapping succeed, falling back to free-text cart
parsing when that `try` block throws, or directly from the free-text cart
when the structured field is falsy; otherwise leave `lineItems` unassigned.
`Except.error` models an uncaught exception escaping `parseOrderData`. -/
def parseOrderData (payload : JSValue) : Except Unit OrderData := do
  let email ← getField payload "quote[email]"
  let fullName ← getField payload "quote[full_name]"
  let addr1 ← getField payload "quote[shipping_address1]"
  let city ← getField payload "quote[shipping_city]"
  let province ← getField payload "quote[shipping_province]"
  let country ← getField payload "quote[shipping_country]"
  let zip ← getField payload "quote[shipping_zip]"
  let cart ← getField payload "quote[Cart]"
  let cartLineItems ← getField payload "quote[cart_line_items]"
  let cartTotal ← getField payload "quote[cart_total]"
  let base : OrderData :=
    ⟨email, fullName, addr1, city, province, country, zip, cart, cartLineItems,
     cartTotal, none⟩
  if jsTruthy cartLineItems then
    match jsonParseJS cartLineItems >>= mapLineItems with
    | .ok items => .ok { base with lineItems := some items }
    | .error _ => do
      let fallback ← parseCartTextJS cart
      .ok { base with lineItems := some fallback }
  else if jsTruthy cart then do
    let items ← parseCartTextJS cart
    .ok { base with lineItems := some items }
  else
    .ok base

/-! ## The orders `action` handler

Model of the `action` export of `src/app/routes/orders.jsx` (lines 176–314).
The body reading and the external submission collaborator
(`unauthenticated.admin` plus `admin.graphql`, wrapped by `createDraftOrder`,
whose `catch` only logs and rethrows) are parameters: `body` is the outcome
of reading and parsing the request body (`Except.error` = it threw), and
`submit shop orderData` is the outcome of the draft-order submission
(`Except.error msg` = it threw or rejected with `error.message = msg`). -/

/-- An opaque successful GraphQL response held by the handler. -/
structure GraphQLResponse where
  data : JSValue

/-- The `draftOrderResult` value: either the raw successful response, or the
captured `{ error: error.message, success: false }` failure object. -/
inductive DraftOrderResult where
  | response : GraphQLResponse → DraftOrderResult
  | failure : String → DraftOrderResult

/-- Whether a draft-order result is the captured failure object (the
`success: false` marker). -/
def DraftOrderResult.isFailure : DraftOrderResult → Bool
  | .response _ => false
  | .failure _ => true

/-- Response body of the orders action. -/
inductive ActionBody where
  | unauthorized : ActionBody
  | ok : OrderData → Option DraftOrderResult → ActionBody
  | serverError : ActionBody

/-- HTTP response of the orders action: status plus structured body. -/
structure ActionResponse where
  status : Nat
  body : ActionBody

/-- Model of the orders `action`: verify the signature (401 on failure),
read the body and normalize it (escaping exceptions become the 500
response), then — only when a truthy `shop` query parameter exists —
attempt the submission inside the inner `try`, capturing a thrown failure
into `DraftOrderResult.failure`, and respond 200. -/
def ordersAction (searchParams : List (String × String)) (sharedSecret : String)
    (body : Except Unit JSValue)
    (submit : String → OrderData → Except String GraphQLResponse) : ActionResponse :=
  if verifyShopifyRequest searchParams sharedSecret then
    match body with
    | .error _ => ⟨500, .serverError⟩
    | .ok payload =>
      match parseOrderData payload with
      | .error _ => ⟨500, .serverError⟩
      | .ok orderData =>
        let draftOrderResult : Option DraftOrderResult :=
          match List.lookup "shop" searchParams with
          | none => none
          | some shop =>
            if shop = "" then none
            else
              match submit shop orderData with
              | .ok resp => some (.response resp)
              | .error msg => some (.failure msg)
        ⟨200, .ok orderData draftOrderResult⟩
  else ⟨401, .unauthorized⟩

/-! ## Properties of the collation order and the sort -/

theorem ordNats_swap (xs ys : List Nat) : ordNats xs ys = (ordNats ys xs).swap := by
  induction xs generalizing ys with
  | nil => cases ys <;> rfl
  | cons x xs ih =>
    cases ys with
    | nil => rfl
    | cons y ys =>
      simp only [ordNats]
      rcases Nat.lt_trichotomy x y with h | h | h
      · rw [if_pos h, if_neg (Nat.lt_asymm h), if_pos h]; rfl
      · subst h
        rw [if_neg (lt_irrefl x), if_neg (lt_irrefl x), if_neg (lt_irrefl x),
          if_neg (lt_irrefl x)]
        exact ih ys
      · rw [if_neg (Nat.lt_asymm h), if_pos h, if_pos h]; rfl

theorem ordNats_eq_iff (xs ys : List Nat) : ordNats xs ys = .eq ↔ xs = ys := by
  induction xs generalizing ys with
  | nil => cases ys <;> simp [ordNats]
  | cons x xs ih =>
    cases ys with
    | nil => simp [ordNats]
    | cons y ys =>
      simp only [ordNats]
      rcases Nat.lt_trichotomy x y with h | h | h
      · rw [if_pos h]
        simp only [List.cons.injEq]
        exact ⟨fun hc => absurd hc (by simp), fun hc => absurd hc.1 (Nat.ne_of_lt h)⟩
      · subst h
        rw [if_neg (lt_irrefl x), if_neg (lt_irrefl x)]
        simp [ih ys]
      · rw [if_neg (Nat.lt_asymm h), if_pos h]
        simp only [List.cons.injEq]
        exact ⟨fun hc => absurd hc (by simp), fun hc => absurd hc.1.symm (Nat.ne_of_lt h)⟩

theorem ordNats_lt_trans {xs ys zs : List Nat} (h₁ : ordNats xs ys = .lt)
    (h₂ : ordNats ys zs = .lt) : ordNats xs zs = .lt := by
  induction xs generalizing ys zs with
  | nil =>
    cases ys with
    | nil => exact absurd h₁ (by simp [ordNats])
    | cons y ys =>
      cases zs with
      | nil => exact absurd h₂ (by simp [ordNats])
      | cons z zs => rfl
  | cons x xs ih =>
    cases ys with
    | nil => exact absurd h₁ (by simp [ordNats])
    | cons y ys =>
      cases zs with
      | nil => exact absurd h₂ (by simp [ordNats])
      | cons z zs =>
        simp only [ordNats] at h₁ h₂ ⊢
        rcases Nat.lt_trichotomy x y with hxy | hxy | hxy
        · rcases Nat.lt_trichotomy y z with hyz | hyz | hyz
          · rw [if_pos (Nat.lt_trans hxy hyz)]
          · subst hyz; rw [if_pos hxy]
          · rw [if_neg (Nat.lt_asymm hyz), if_pos hyz] at h₂; exact absurd h₂ (by simp)
        · subst hxy
          rcases Nat.lt_trichotomy x z with hyz | hyz | hyz
          · rw [if_pos hyz]
          · subst hyz
            rw [if_neg (lt_irrefl x), if_neg (lt_irrefl x)] at h₁ h₂ ⊢
            exact ih h₁ h₂
          · rw [if_neg (Nat.lt_asymm hyz), if_pos hyz] at h₂; exact absurd h₂ (by simp)
        · rw [if_neg (Nat.lt_asymm hxy), if_pos hxy] at h₁; exact absurd h₁ (by simp)

theorem ordNats_ne_gt_trans {xs ys zs : List Nat} (h₁ : ordNats xs ys ≠ .gt)
    (h₂ : ordNats ys zs ≠ .gt) : ordNats xs zs ≠ .gt := by
  rcases hxy : ordNats xs ys with _ | _ | _
  · rcases hyz : ordNats ys zs with _ | _ | _
    · simp [ordNats_lt_trans hxy hyz]
    · rw [(ordNats_eq_iff ys zs).mp hyz] at hxy; simp [hxy]
    · exact absurd hyz h₂
  · rw [(ordNats_eq_iff xs ys).mp hxy]; exact h₂
  · exact absurd hxy h₁

theorem localeOrd_swap (a b : String) : localeOrd a b = (localeOrd b a).swap := by
  unfold localeOrd
  rw [ordNats_swap (primaryKey a) (primaryKey b),
    ordNats_swap (tertiaryKey a) (tertiaryKey b)]
  cases ordNats (primaryKey b) (primaryKey a) <;>
    cases ordNats (tertiaryKey b) (tertiaryKey a) <;> rfl

theorem localeCompare_swap (a b : String) : localeCompare a b = -localeCompare b a := by
  unfold localeCompare
  rw [localeOrd_swap]
  cases localeOrd b a <;> rfl

theorem localeCompare_self (a : String) : localeCompare a a = 0 := by
  have := localeCompare_swap a a
  omega

theorem localeCompare_le_iff (a b : String) :
    localeCompare a b ≤ 0 ↔ localeOrd a b ≠ .gt := by
  unfold localeCompare
  cases localeOrd a b <;> simp

theorem localeCompare_le_of_not_lt {x y : String} (h : ¬ localeCompare y x < 0) :
    localeCompare x y ≤ 0 := by
  rw [localeCompare_swap] at h
  omega

theorem localeOrd_ne_gt_trans {a b c : String} (h₁ : localeOrd a b ≠ .gt)
    (h₂ : localeOrd b c ≠ .gt) : localeOrd a c ≠ .gt := by
  unfold localeOrd at h₁ h₂ ⊢
  rcases hab : ordNats (primaryKey a) (primaryKey b) with _ | _ | _ <;> rw [hab] at h₁
  · rcases hbc : ordNats (primaryKey b) (primaryKey c) with _ | _ | _ <;> rw [hbc] at h₂
    · rw [ordNats_lt_trans hab hbc]
      exact fun hcon => Ordering.noConfusion hcon
    · rw [← (ordNats_eq_iff _ _).mp hbc, hab]
      exact fun hcon => Ordering.noConfusion hcon
    · exact absurd rfl h₂
  · rcases hbc : ordNats (primaryKey b) (primaryKey c) with _ | _ | _ <;> rw [hbc] at h₂
    · rw [(ordNats_eq_iff _ _).mp hab, hbc]
      exact fun hcon => Ordering.noConfusion hcon
    · have hac : ordNats (primaryKey a) (primaryKey c) = .eq := by
        rw [(ordNats_eq_iff _ _).mp hab, (ordNats_eq_iff _ _).mp hbc]
        exact (ordNats_eq_iff _ _).mpr rfl
      rw [hac]
      exact ordNats_ne_gt_trans h₁ h₂
    · exact absurd rfl h₂
  · exact absurd rfl h₁

theorem localeCompare_le_trans {a b c : String} (h₁ : localeCompare a b ≤ 0)
    (h₂ : localeCompare b c ≤ 0) : localeCompare a c ≤ 0 := by
  rw [localeCompare_le_iff] at h₁ h₂ ⊢
  exact localeOrd_ne_gt_trans h₁ h₂

/-- The key-order relation the serializer sorts by. -/
def keyLe (p q : String × String) : Prop := localeCompare p.1 q.1 ≤ 0

/-- The strict key order. -/
def keyLt (p q : String × String) : Prop := localeCompare p.1 q.1 < 0

/-- Key inequivalence: the comparator separates the two keys. -/
def keyNe (p q : String × String) : Prop := localeCompare p.1 q.1 ≠ 0

instance : IsTrans (String × String) keyLe :=
  ⟨fun _ _ _ h₁ h₂ => localeCompare_le_trans h₁ h₂⟩

theorem insertPair_perm (x : String × String) (l : List (String × String)) :
    List.Perm (insertPair x l) (x :: l) := by
  induction l with
  | nil => exact List.Perm.refl _
  | cons y ys ih =>
    by_cases h : localeCompare y.1 x.1 < 0
    · rw [insertPair, if_pos h]
      exact (ih.cons y).trans (List.Perm.swap x y ys)
    · rw [insertPair, if_neg h]

theorem sortPairs_perm (l : List (String × String)) : List.Perm (sortPairs l) l := by
  induction l with
  | nil => exact List.Perm.refl _
  | cons x xs ih => exact (insertPair_perm x (sortPairs xs)).trans (ih.cons x)

theorem insertPair_head (x : String × String) (l : List (String × String)) :
    (insertPair x l).head? = some x ∨
      ∃ y, l.head? = some y ∧ (insertPair x l).head? = some y := by
  cases l with
  | nil => exact Or.inl rfl
  | cons y ys =>
    by_cases h : localeCompare y.1 x.1 < 0
    · exact Or.inr ⟨y, rfl, by rw [insertPair, if_pos h]; rfl⟩
    · exact Or.inl (by rw [insertPair, if_neg h]; rfl)

theorem insertPair_chain {x : String × String} {l : List (String × String)}
    (hl : List.Chain' keyLe l) : List.Chain' keyLe (insertPair x l) := by
  induction l with
  | nil => simp [insertPair]
  | cons y ys ih =>
    rw [List.chain'_cons'] at hl
    by_cases h : localeCompare y.1 x.1 < 0
    · rw [insertPair, if_pos h, List.chain'_cons']
      refine ⟨?_, ih hl.2⟩
      intro z hz
      rcases insertPair_head x ys with hh | ⟨w, hw, hh⟩
      · rw [hh, Option.mem_some_iff] at hz
        subst hz
        exact le_of_lt h
      · rw [hh, Option.mem_some_iff] at hz
        subst hz
        exact hl.1 w hw
    · rw [insertPair, if_neg h, List.chain'_cons']
      refine ⟨?_, ?_⟩
      · intro z hz
        rw [List.head?_cons, Option.mem_some_iff] at hz
        subst hz
        exact localeCompare_le_of_not_lt h
      · rw [List.chain'_cons']
        exact hl

theorem sortPairs_chain (l : List (String × String)) :
    List.Chain' keyLe (sortPairs l) := by
  induction l with
  | nil => simp [sortPairs]
  | cons x xs ih => exact insertPair_chain ih

theorem sortPairs_pairwise (l : List (String × String)) :
    List.Pairwise keyLe (sortPairs l) :=
  List.chain'_iff_pairwise.mp (sortPairs_chain l)

/-! ## The byte-wise serialization the spec describes

Modelled from the spec: "Sort the candidate set's keys by ordinal
(byte-wise) string comparison, ascending."  This definition follows the
spec's words — it is the comparison point for the refinement claim about
the sort order, not a translation of the source (the source uses
`localeCompare`). -/

/-- Code-point sequence of a string, the key of ordinal comparison. -/
def codeKey (s : String) : List Nat := s.data.map Char.toNat

/-- Modelled from the spec: stable insertion by ordinal (byte-wise)
ascending key comparison. -/
def insertPairBytewise (x : String × String) :
    List (String × String) → List (String × String)
  | [] => [x]
  | y :: ys =>
    if ordNats (codeKey y.1) (codeKey x.1) = .lt then y :: insertPairBytewise x ys
    else x :: y :: ys

/-- Modelled from the spec: sort of the candidate pairs by ordinal
(byte-wise) key comparison. -/
def sortPairsBytewise : List (String × String) → List (String × String)
  | [] => []
  | x :: xs => insertPairBytewise x (sortPairsBytewise xs)

/-- Modelled from the spec: the serialization with byte-wise ascending key
order that the spec prescribes. -/
def serializeBytewise (ps : List (String × String)) : String :=
  concatStrings ((sortPairsBytewise ps).map pairString)

/-- C1 counterexample. The code sorts with `localeCompare`, not byte-wise:
for the candidate parameters `B=1, a=2` the code serializes `"a=2B=1"`
(root-locale collation puts `"a"` before `"B"`), while byte-wise ordinal
order puts `"B"` (0x42) before `"a"` (0x61) and yields `"B=1a=2"`. -/
theorem verify_sort_not_bytewise :
    sortedSerialization [("B", "1"), ("a", "2"), ("signature", "sig")] = "a=2B=1" ∧
    serializeBytewise [("B", "1"), ("a", "2")] = "B=1a=2" ∧
    sortedSerialization [("B", "1"), ("a", "2"), ("signature", "sig")] ≠
      serializeBytewise [("B", "1"), ("a", "2")] := by
  refine ⟨by decide, by decide, by decide⟩

/-- C1 (amended): after removing the signature field the code serializes the
candidate pairs in a permutation whose keys ascend in the `localeCompare`
(root-locale collation) order — not in byte-wise ordinal order — and the
string fed to HMAC-SHA256 is the concatenation of `key=value` over exactly
that sorted permutation. -/
theorem verify_serialization_sorted_by_locale (ps : List (String × String)) :
    List.Perm (sortPairs (removeSignatureParam ps)) (removeSignatureParam ps) ∧
    List.Chain' (fun p q : String × String => localeCompare p.1 q.1 ≤ 0)
      (sortPairs (removeSignatureParam ps)) ∧
    sortedSerialization ps =
      concatStrings ((sortPairs (removeSignatureParam ps)).map pairString) :=
  ⟨sortPairs_perm _, sortPairs_chain _, rfl⟩

/-! ## Hex digest facts -/

theorem hexChars_length (k n : Nat) : (hexChars k n).length = k := by
  induction k generalizing n with
  | zero => rfl
  | succ k ih => simp [hexChars, ih]

theorem hmacHex_ne_empty (key msg : String) : hmacHex key msg ≠ "" := by
  intro h
  have hd : hexChars 64 (hmacNat key msg) = [] := congrArg String.data h
  have hlen := hexChars_length 64 (hmacNat key msg)
  rw [hd] at hlen
  simp at hlen

/-! ## Round-trip verification -/

/-- Core round-trip lemma: with a non-empty secret, a parameter list whose
first `signature` entry is exactly the hex HMAC of its own sorted
serialization verifies. -/
theorem verify_of_sig_eq {ps : List (String × String)} {secret : String}
    (hs : secret ≠ "")
    (hsig : List.lookup "signature" ps = some (hmacHex secret (sortedSerialization ps))) :
    verifyShopifyRequest ps secret = true := by
  rw [verifyShopifyRequest, if_neg hs, hsig]
  show (if hmacHex secret (sortedSerialization ps) = "" then false
      else hmacHex secret (sortedSerialization ps) ==
        hmacHex secret (sortedSerialization ps)) = true
  rw [if_neg (hmacHex_ne_empty secret (sortedSerialization ps))]
  exact beq_self_eq_true _

/-- C2: sign-then-verify round trip.  For every parameter list and non-empty
secret, if the `signature` parameter equals the lowercase hex HMAC-SHA256,
keyed by the secret, of the sorted separator-less serialization of the
non-signature parameters, then `verifyShopifyRequest` returns `true`. -/
theorem verify_sign_roundtrip (ps : List (String × String)) (secret : String)
    (hs : secret ≠ "")
    (hsig : List.lookup "signature" ps =
      some (hmacHex secret (serializeSorted (removeSignatureParam ps)))) :
    verifyShopifyRequest ps secret = true :=
  verify_of_sig_eq hs hsig

/-- C2 witness: a concrete signed parameter list verifies. -/
theorem verify_sign_roundtrip_witness :
    verifyShopifyRequest [("a", "1"), ("signature", hmacHex "sec" "a=1")] "sec" = true :=
  verify_sign_roundtrip _ _ (by decide) rfl

/-- C7: failed preconditions force rejection.  With an empty (unconfigured)
secret the verifier returns `false` regardless of the parameters, and
without a `signature` parameter it returns `false` regardless of the
secret. -/
theorem verify_rejects_missing_preconditions (ps : List (String × String))
    (secret : String) :
    (secret = "" → verifyShopifyRequest ps secret = false) ∧
    (List.lookup "signature" ps = none → verifyShopifyRequest ps secret = false) := by
  constructor
  · intro h
    rw [verifyShopifyRequest, if_pos h]
  · intro h
    rw [verifyShopifyRequest]
    by_cases hs : secret = ""
    · rw [if_pos hs]
    · rw [if_neg hs, h]

/-- C7 witness: concrete instances of both rejection conditions. -/
theorem verify_rejects_missing_preconditions_witness :
    verifyShopifyRequest [("a", "1"), ("signature", "abc")] "" = false ∧
    verifyShopifyRequest [("a", "1")] "sec" = false :=
  ⟨(verify_rejects_missing_preconditions [("a", "1"), ("signature", "abc")] "").1 rfl,
   (verify_rejects_missing_preconditions [("a", "1")] "sec").2 rfl⟩

/-! ## Verification of structured parameter lists -/

theorem lookup_append_not_sig {front : List (String × String)} {S : String}
    (hfront : ∀ p ∈ front, p.1 ≠ "signature") :
    List.lookup "signature" (front ++ [("signature", S)]) = some S := by
  induction front with
  | nil => simp [List.lookup]
  | cons p rest ih =>
    obtain ⟨k, v⟩ := p
    have hk : ("signature" == k) = false :=
      beq_eq_false_iff_ne.mpr (Ne.symm (hfront ⟨k, v⟩ (List.mem_cons_self _ _)))
    rw [List.cons_append, List.lookup, hk]
    exact ih (fun q hq => hfront q (List.mem_cons_of_mem _ hq))

theorem removeSig_append_sig {front : List (String × String)} {S : String}
    (hfront : ∀ p ∈ front, p.1 ≠ "signature") :
    removeSignatureParam (front ++ [("signature", S)]) = front := by
  rw [removeSignatureParam, List.filter_append]
  have h₁ : List.filter (fun p => p.1 != "signature") [("signature", S)] = [] := by
    simp [List.filter]
  have h₂ : List.filter (fun p => p.1 != "signature") front = front :=
    List.filter_eq_self.mpr (fun p hp => bne_iff_ne.mpr (hfront p hp))
  rw [h₁, h₂, List.append_nil]

/-- With a non-empty secret and non-empty trailing signature value, verifying
`front ++ [("signature", S)]` (no other signature keys) reduces to comparing
the recomputed digest of `front` with `S`. -/
theorem verify_structured {front : List (String × String)} {S secret : String}
    (hfront : ∀ p ∈ front, p.1 ≠ "signature") (hs : secret ≠ "") (hS : S ≠ "") :
    verifyShopifyRequest (front ++ [("signature", S)]) secret =
      (hmacHex secret (serializeSorted front) == S) := by
  rw [verifyShopifyRequest, if_neg hs, lookup_append_not_sig hfront]
  show (if S = "" then false
      else hmacHex secret (sortedSerialization (front ++ [("signature", S)])) == S) = _
  rw [if_neg hS, sortedSerialization, removeSig_append_sig hfront]

/-! ## Serialization as a function of one value -/

theorem concatStrings_append (u w : List String) :
    concatStrings (u ++ w) = concatStrings u ++ concatStrings w := by
  induction u with
  | nil =>
    show concatStrings w = "" ++ concatStrings w
    cases concatStrings w
    rfl
  | cons s rest ih =>
    show s ++ concatStrings (rest ++ w) = (s ++ concatStrings rest) ++ concatStrings w
    rw [ih, String.append_assoc]

theorem insertPair_const_hole (p : String × String) (k : String)
    (A B : List (String × String)) :
    ∃ A' B', ∀ x, insertPair p (A ++ (k, x) :: B) = A' ++ (k, x) :: B' := by
  induction A with
  | nil =>
    by_cases h : localeCompare k p.1 < 0
    · exact ⟨[], insertPair p B, fun x => by rw [List.nil_append, insertPair, if_pos h]; rfl⟩
    · exact ⟨[p], B, fun x => by rw [List.nil_append, insertPair, if_neg h]; rfl⟩
  | cons a A' ih =>
    obtain ⟨A'', B'', hAB⟩ := ih
    by_cases h : localeCompare a.1 p.1 < 0
    · exact ⟨a :: A'', B'', fun x => by
        rw [List.cons_append, insertPair, if_pos h, hAB x]; rfl⟩
    · exact ⟨[p, a] ++ A', B, fun x => by
        rw [List.cons_append, insertPair, if_neg h]; rfl⟩

theorem insertPair_hole (k : String) (c : List (String × String)) :
    ∃ A B, ∀ x, insertPair (k, x) c = A ++ (k, x) :: B := by
  induction c with
  | nil => exact ⟨[], [], fun x => rfl⟩
  | cons y ys ih =>
    obtain ⟨A, B, hAB⟩ := ih
    by_cases h : localeCompare y.1 k < 0
    · exact ⟨y :: A, B, fun x => by rw [insertPair, if_pos h, hAB x]; rfl⟩
    · exact ⟨[], y :: ys, fun x => by rw [insertPair, if_neg h]; rfl⟩

theorem sortPairs_hole (l₁ l₂ : List (String × String)) (k : String) :
    ∃ A B, ∀ x, sortPairs (l₁ ++ (k, x) :: l₂) = A ++ (k, x) :: B := by
  induction l₁ with
  | nil =>
    obtain ⟨A, B, hAB⟩ := insertPair_hole k (sortPairs l₂)
    exact ⟨A, B, fun x => by rw [List.nil_append, sortPairs, hAB x]⟩
  | cons p l₁' ih =>
    obtain ⟨A, B, hAB⟩ := ih
    obtain ⟨A', B', hAB'⟩ := insertPair_const_hole p k A B
    exact ⟨A', B', fun x => by rw [List.cons_append, sortPairs, hAB x, hAB' x]⟩

theorem string_data_inj {s t : String} (h : s.data = t.data) : s = t := by
  cases s
  cases t
  exact congrArg String.mk h

theorem serializeSorted_hole_ne {l₁ l₂ : List (String × String)} {k v v' : String}
    (hvv : v ≠ v') :
    serializeSorted (l₁ ++ (k, v) :: l₂) ≠ serializeSorted (l₁ ++ (k, v') :: l₂) := by
  obtain ⟨A, B, hAB⟩ := sortPairs_hole l₁ l₂ k
  intro h
  rw [serializeSorted, serializeSorted, hAB v, hAB v'] at h
  simp only [List.map_append, List.map_cons, concatStrings_append, concatStrings,
    pairString] at h
  have hd := congrArg String.data h
  simp only [String.data_append, List.append_assoc] at hd
  have h1 := List.append_cancel_left hd
  have h2 := List.append_cancel_left h1
  have h3 := List.append_cancel_left h2
  have h4 := List.append_cancel_right h3
  exact hvv (string_data_inj h4)

/-! ## Digest bounds and a nonconstructive collision -/

theorem foldl_bytes_lt (l : List Nat) :
    ∀ acc, List.foldl (fun acc b => acc * 256 + b % 256) acc l <
      (acc + 1) * 256 ^ l.length := by
  induction l with
  | nil =>
    intro acc
    simp
  | cons b l ih =>
    intro acc
    rw [List.foldl_cons, List.length_cons]
    have h := ih (acc * 256 + b % 256)
    have hb : b % 256 < 256 := Nat.mod_lt _ (by decide)
    have hle : (acc * 256 + b % 256 + 1) * 256 ^ l.length ≤
        (acc + 1) * 256 ^ (l.length + 1) := by
      rw [pow_succ]
      calc (acc * 256 + b % 256 + 1) * 256 ^ l.length
          ≤ ((acc + 1) * 256) * 256 ^ l.length :=
            Nat.mul_le_mul_right _ (by omega)
        _ = (acc + 1) * (256 ^ l.length * 256) := by ring
    exact Nat.lt_of_lt_of_le h hle

theorem natOfBytes_lt (l : List Nat) : natOfBytes l < 256 ^ l.length := by
  have h := foldl_bytes_lt l 0
  simpa [natOfBytes] using h

theorem hashBytes_length (st : Hash8) : (hashBytes st).length = 32 := by
  simp [hashBytes, wordToBytes]

theorem sha256_length (msg : List Nat) : (sha256 msg).length = 32 :=
  hashBytes_length _

theorem hmacSha256_length (key msg : List Nat) : (hmacSha256 key msg).length = 32 :=
  sha256_length _

theorem hmacNat_lt (key msg : String) : hmacNat key msg < 256 ^ 32 := by
  have h := natOfBytes_lt (hmacSha256 (strBytes key) (strBytes msg))
  rwa [hmacSha256_length] at h

/-- A string of `n` letters `a`. -/
def repA (n : Nat) : String := String.mk (List.replicate n 'a')

theorem repA_injective : Function.Injective repA := by
  intro n m h
  have hd : List.replicate n 'a' = List.replicate m 'a' := congrArg String.data h
  have := congrArg List.length hd
  simpa using this

/-- HMAC-SHA256 digests form a finite set, so over the infinitely many
candidate values some two distinct values collide (pigeonhole); no
explicit pair is produced. -/
theorem exists_hmac_collision (secret pre : String) :
    ∃ v v', v ≠ v' ∧ hmacNat secret (pre ++ v) = hmacNat secret (pre ++ v') := by
  obtain ⟨n, m, hnm, heq⟩ := Finite.exists_ne_map_eq_of_infinite
    (fun n : Nat => (⟨hmacNat secret (pre ++ repA n), hmacNat_lt _ _⟩ : Fin (256 ^ 32)))
  refine ⟨repA n, repA m, fun h => hnm (repA_injective h), ?_⟩
  exact congrArg Fin.val heq

theorem serializeSorted_single (p : String × String) :
    serializeSorted [p] = pairString p := by
  show pairString p ++ "" = pairString p
  exact String.append_empty _

/-- C5 (amended): changing one non-signature value always changes the
serialization string, and the tampered request fails verification exactly
when the recomputed digest of the tampered serialization differs from the
original signature — tamper detection reduces to the absence of an
HMAC-SHA256 collision between the two distinct serializations. -/
theorem verify_tamper_detection (l₁ l₂ : List (String × String))
    (k v v' secret : String) (hk : k ≠ "signature")
    (h₁ : ∀ p ∈ l₁, p.1 ≠ "signature") (h₂ : ∀ p ∈ l₂, p.1 ≠ "signature")
    (hvv : v ≠ v') (hs : secret ≠ "") :
    serializeSorted (l₁ ++ (k, v') :: l₂) ≠ serializeSorted (l₁ ++ (k, v) :: l₂) ∧
    (verifyShopifyRequest
        ((l₁ ++ (k, v') :: l₂) ++
          [("signature", hmacHex secret (serializeSorted (l₁ ++ (k, v) :: l₂)))])
        secret = false ↔
      hmacHex secret (serializeSorted (l₁ ++ (k, v') :: l₂)) ≠
        hmacHex secret (serializeSorted (l₁ ++ (k, v) :: l₂))) := by
  have hfront : ∀ p ∈ l₁ ++ (k, v') :: l₂, p.1 ≠ "signature" := by
    intro p hp
    rcases List.mem_append.mp hp with h | h
    · exact h₁ p h
    · rcases List.mem_cons.mp h with rfl | h
      · exact hk
      · exact h₂ p h
  constructor
  · exact serializeSorted_hole_ne (Ne.symm hvv)
  · rw [verify_structured hfront hs (hmacHex_ne_empty _ _)]
    exact beq_eq_false_iff_ne

/-- C5 witness: a concrete instantiation of the amended tamper-detection
statement. -/
theorem verify_tamper_detection_witness :
    serializeSorted [("a", "2")] ≠ serializeSorted [("a", "1")] ∧
    (verifyShopifyRequest
        [("a", "2"), ("signature", hmacHex "s" (serializeSorted [("a", "1")]))]
        "s" = false ↔
      hmacHex "s" (serializeSorted [("a", "2")]) ≠
        hmacHex "s" (serializeSorted [("a", "1")])) :=
  verify_tamper_detection [] [] "a" "1" "2" "s" (by decide) (by simp) (by simp)
    (by decide) (by decide)

/-- C5 counterexample: the claim as stated — that changing a single value
always makes `verify` return `false` — is refuted nonconstructively: some
two distinct values produce colliding HMAC-SHA256 digests (pigeonhole over
the 2^256 possible digests), and for such values the tampered request still
verifies. -/
theorem verify_tamper_not_universal :
    ¬ ∀ (l₁ l₂ : List (String × String)) (k v v' secret : String),
        k ≠ "signature" →
        (∀ p ∈ l₁, p.1 ≠ "signature") → (∀ p ∈ l₂, p.1 ≠ "signature") →
        v ≠ v' →
        verifyShopifyRequest
          ((l₁ ++ (k, v') :: l₂) ++
            [("signature", hmacHex secret (serializeSorted (l₁ ++ (k, v) :: l₂)))])
          secret = false := by
  intro hall
  obtain ⟨v, v', hvv, heq⟩ := exists_hmac_collision "s" "k="
  have hfalse := hall [] [] "k" v v' "s" (by decide) (by simp) (by simp) hvv
  simp only [List.nil_append] at hfalse
  have hfront : ∀ p ∈ [("k", v')], p.1 ≠ "signature" := by
    intro p hp
    rcases List.mem_cons.mp hp with rfl | h
    · show ("k" : String) ≠ "signature"
      decide
    · cases h
  have hp : ∀ x : String, pairString ("k", x) = "k=" ++ x := by
    intro x
    show ("k" ++ "=") ++ x = "k=" ++ x
    rfl
  have htrue : verifyShopifyRequest
      ([("k", v')] ++ [("signature", hmacHex "s" (serializeSorted [("k", v)]))])
      "s" = true := by
    rw [verify_structured hfront (by decide) (hmacHex_ne_empty _ _),
      serializeSorted_single, serializeSorted_single, hp v, hp v']
    simp only [hmacHex]
    rw [heq]
    exact beq_self_eq_true _
  exact Bool.noConfusion (htrue.symm.trans hfalse)

/-! ## Order independence for duplicate-free keys -/

theorem keyNe_symm : Symmetric keyNe := by
  intro p q h
  rw [keyNe, localeCompare_swap]
  rw [keyNe] at h
  omega

theorem lookup_none_of_no_key {l : List (String × String)} {key : String}
    (h : ∀ p ∈ l, p.1 ≠ key) : List.lookup key l = none := by
  induction l with
  | nil => rfl
  | cons p rest ih =>
    obtain ⟨k, v⟩ := p
    have hk : (key == k) = false :=
      beq_eq_false_iff_ne.mpr (Ne.symm (h ⟨k, v⟩ (List.mem_cons_self _ _)))
    rw [List.lookup, hk]
    exact ih (fun q hq => h q (List.mem_cons_of_mem _ hq))

theorem lookup_eq_some_of_mem {l : List (String × String)} {key v : String}
    (hl : List.Pairwise keyNe l) (hmem : (key, v) ∈ l) :
    List.lookup key l = some v := by
  induction l with
  | nil => cases hmem
  | cons p rest ih =>
    rcases List.mem_cons.mp hmem with he | hm
    · rw [← he, List.lookup, beq_self_eq_true]
    · have hk : p.1 ≠ key := by
        intro hcon
        have := (List.pairwise_cons.mp hl).1 (key, v) hm
        rw [keyNe, hcon, localeCompare_self] at this
        exact this rfl
      obtain ⟨k, w⟩ := p
      rw [List.lookup, beq_eq_false_iff_ne.mpr (Ne.symm hk)]
      exact ih (List.pairwise_cons.mp hl).2 hm

theorem lookup_eq_of_perm {l₁ l₂ : List (String × String)} {key : String}
    (hperm : List.Perm l₁ l₂) (hne : List.Pairwise keyNe l₁) :
    List.lookup key l₁ = List.lookup key l₂ := by
  by_cases hmem : ∃ v, (key, v) ∈ l₁
  · obtain ⟨v, hv⟩ := hmem
    rw [lookup_eq_some_of_mem hne hv,
      lookup_eq_some_of_mem ((hperm.pairwise_iff (fun hxy => keyNe_symm hxy)).mp hne) (hperm.mem_iff.mp hv)]
  · have hno : ∀ p ∈ l₁, p.1 ≠ key := by
      intro p hp hcon
      exact hmem ⟨p.2, by rw [← hcon]; exact hp⟩
    rw [lookup_none_of_no_key hno,
      lookup_none_of_no_key (fun p hp => hno p (hperm.mem_iff.mpr hp))]

instance : IsAntisymm (String × String) (fun p q => keyLt p q ∨ p = q) := by
  constructor
  intro p q h₁ h₂
  rcases h₁ with h₁ | h₁
  · rcases h₂ with h₂ | h₂
    · rw [keyLt, localeCompare_swap] at h₂
      rw [keyLt] at h₁
      omega
    · exact h₂.symm
  · exact h₁

theorem sortPairs_eq_of_perm {l₁ l₂ : List (String × String)}
    (hperm : List.Perm l₁ l₂) (hne : List.Pairwise keyNe l₁) :
    sortPairs l₁ = sortPairs l₂ := by
  have hp : List.Perm (sortPairs l₁) (sortPairs l₂) :=
    (sortPairs_perm l₁).trans (hperm.trans (sortPairs_perm l₂).symm)
  have hsorted : ∀ (l : List (String × String)), List.Pairwise keyNe l →
      List.Sorted (fun p q => keyLt p q ∨ p = q) (sortPairs l) := by
    intro l hl
    have h₁ := sortPairs_pairwise l
    have h₂ : List.Pairwise keyNe (sortPairs l) :=
      ((sortPairs_perm l).pairwise_iff (fun hxy => keyNe_symm hxy)).mpr hl
    exact (h₁.and h₂).imp (fun hpq => Or.inl (lt_of_le_of_ne hpq.1 hpq.2))
  exact List.eq_of_perm_of_sorted hp (hsorted l₁ hne)
    (hsorted l₂ ((hperm.pairwise_iff (fun hxy => keyNe_symm hxy)).mp hne))

/-- C6 (amended): for parameter lists with pairwise collation-distinct keys
(in particular, no duplicate keys), the verification result is invariant
under permutation of the input order. -/
theorem verify_order_independent (l₁ l₂ : List (String × String)) (secret : String)
    (hperm : List.Perm l₁ l₂) (hne : List.Pairwise keyNe l₁) :
    verifyShopifyRequest l₁ secret = verifyShopifyRequest l₂ secret := by
  rw [verifyShopifyRequest, verifyShopifyRequest]
  by_cases hs : secret = ""
  · rw [if_pos hs, if_pos hs]
  rw [if_neg hs, if_neg hs, ← lookup_eq_of_perm hperm hne]
  cases hsig : List.lookup "signature" l₁ with
  | none => rfl
  | some sig =>
    have hser : sortedSerialization l₁ = sortedSerialization l₂ := by
      rw [sortedSerialization, sortedSerialization, serializeSorted, serializeSorted,
        removeSignatureParam, removeSignatureParam,
        sortPairs_eq_of_perm (hperm.filter _) (hne.filter _)]
    rw [hser]

/-- C6 witness: two concrete permuted duplicate-free parameter lists get the
same verification result. -/
theorem verify_order_independent_witness :
    verifyShopifyRequest [("b", "2"), ("a", "1")] "s" =
      verifyShopifyRequest [("a", "1"), ("b", "2")] "s" := by
  refine verify_order_independent _ _ _ (List.Perm.swap _ _ _) ?_
  refine List.Pairwise.cons ?_ (List.pairwise_singleton _ _)
  intro q hq
  rcases List.mem_singleton.mp hq with rfl
  show localeCompare "b" "a" ≠ 0
  decide

set_option maxRecDepth 40000 in
/-- C6 counterexample. With a duplicate key the claim fails: the two lists
below hold the same key/value pairs in different input order, yet the first
verifies (its signature is the digest of `"a=1a=2"`) and the second does
not (the stable sort preserves the input order of the duplicate `a` keys,
serializing `"a=2a=1"`, whose digest differs). -/
theorem verify_not_order_independent_with_duplicates :
    List.Perm [("a", "1"), ("a", "2"), ("signature", hmacHex "s" "a=1a=2")]
      [("a", "2"), ("a", "1"), ("signature", hmacHex "s" "a=1a=2")] ∧
    verifyShopifyRequest
      [("a", "1"), ("a", "2"), ("signature", hmacHex "s" "a=1a=2")] "s" = true ∧
    verifyShopifyRequest
      [("a", "2"), ("a", "1"), ("signature", hmacHex "s" "a=1a=2")] "s" = false := by
  refine ⟨List.Perm.swap _ _ _, ?_, by decide⟩
  have hfront : ∀ p ∈ [("a", "1"), ("a", "2")], p.1 ≠ "signature" := by
    intro p hp
    rcases List.mem_cons.mp hp with rfl | hp
    · show ("a" : String) ≠ "signature"
      decide
    rcases List.mem_cons.mp hp with rfl | hp
    · show ("a" : String) ≠ "signature"
      decide
    · cases hp
  have h := verify_structured hfront (show ("s" : String) ≠ "" by decide)
    (hmacHex_ne_empty "s" "a=1a=2")
  have hser : serializeSorted [("a", "1"), ("a", "2")] = "a=1a=2" := by decide
  rw [hser] at h
  exact h.trans (beq_self_eq_true _)

/-! ## Handler behavior on submission failure -/

/-- C4: when verification succeeds, the body parses, a truthy `shop`
parameter exists and the submission collaborator throws or rejects, the
handler captures the failure object (the `success: false` marker) into the
response body and still responds 200. -/
theorem action_captures_submission_failure (sp : List (String × String))
    (secret : String) (body : Except Unit JSValue)
    (submit : String → OrderData → Except String GraphQLResponse)
    (payload : JSValue) (od : OrderData) (shop err : String)
    (hver : verifyShopifyRequest sp secret = true) (hbody : body = .ok payload)
    (hod : parseOrderData payload = .ok od)
    (hshop : List.lookup "shop" sp = some shop) (hshopne : shop ≠ "")
    (hsub : submit shop od = .error err) :
    ordersAction sp secret body submit = ⟨200, .ok od (some (.failure err))⟩ ∧
    (DraftOrderResult.failure err).isFailure = true := by
  refine ⟨?_, rfl⟩
  rw [ordersAction.eq_def, if_pos hver, hbody]
  show (match parseOrderData payload with
    | .error _ => (⟨500, .serverError⟩ : ActionResponse)
    | .ok orderData =>
      ⟨200, .ok orderData
        (match List.lookup "shop" sp with
          | none => none
          | some shop =>
            if shop = "" then none
            else
              match submit shop orderData with
              | .ok resp => some (.response resp)
              | .error msg => some (.failure msg))⟩) = _
  rw [hod]
  show (⟨200, .ok od
      (match List.lookup "shop" sp with
        | none => none
        | some shop =>
          if shop = "" then none
          else
            match submit shop od with
            | .ok resp => some (.response resp)
            | .error msg => some (.failure msg))⟩ : ActionResponse) = _
  rw [hshop]
  show (⟨200, .ok od
      (if shop = "" then none
        else
          match submit shop od with
          | .ok resp => some (.response resp)
          | .error msg => some (.failure msg))⟩ : ActionResponse) = _
  rw [if_neg hshopne, hsub]

/-- C4 witness: a concretely signed request whose collaborator rejects still
yields status 200 with the captured failure object. -/
theorem action_captures_submission_failure_witness :
    ordersAction
      [("shop", "x.myshopify.com"),
        ("signature", hmacHex "sec" "shop=x.myshopify.com")]
      "sec" (.ok (.obj [])) (fun _ _ => .error "network failure") =
      ⟨200, .ok ⟨.undefined, .undefined, .undefined, .undefined, .undefined, .undefined, .undefined, .undefined,
        .undefined, .undefined, none⟩ (some (.failure "network failure"))⟩ :=
  (action_captures_submission_failure
    [("shop", "x.myshopify.com"), ("signature", hmacHex "sec" "shop=x.myshopify.com")]
    "sec" (.ok (.obj [])) (fun _ _ => .error "network failure") (.obj [])
    ⟨.undefined, .undefined, .undefined, .undefined, .undefined, .undefined, .undefined, .undefined, .undefined,
      .undefined, none⟩
    "x.myshopify.com" "network failure"
    (verify_of_sig_eq (by decide) (by rfl)) rfl rfl rfl (by decide) rfl).1

/-! ## Totality and fallback of the normalizer -/

/-- Whether a value is a string or falsy: exactly the arguments on which
`parseCartText` cannot throw. -/
def strOrFalsyB : JSValue → Bool
  | .str _ => true
  | v => !jsTruthy v

/-- The line items the free-text fallback produces for a given cart value
(empty for any falsy value). -/
def cartItemsOf : JSValue → List LineItemJS
  | .str s => parseCartText s
  | _ => []

/-- Reduction of one `Except.ok` bind, used to push the field extractions
of `parseOrderData` through the do-notation. -/
theorem exceptOk_bind {e a b : Type} (x : a) (f : a → Except e b) :
    Bind.bind (Except.ok x : Except e a) f = f x := rfl

theorem getField_ok (p : JSValue) (k : String) (h1 : p ≠ .null) (h2 : p ≠ .undefined) :
    getField p k = .ok (jsField p k) := by
  cases p with
  | null => exact absurd rfl h1
  | undefined => exact absurd rfl h2
  | bool b => rfl
  | num n => rfl
  | str s => rfl
  | arr l => rfl
  | obj fields => rfl

theorem parseCartTextJS_ok (v : JSValue) (h : strOrFalsyB v = true) :
    parseCartTextJS v = .ok (cartItemsOf v) := by
  cases v with
  | str s =>
    by_cases hs : s = ""
    · subst hs
      rfl
    · rw [parseCartTextJS, if_pos (by simp [jsTruthy, hs])]
      rfl
  | undefined => rfl
  | null => rfl
  | bool b =>
    have hb : b = false := by simpa [strOrFalsyB, jsTruthy] using h
    subst hb
    rfl
  | num n =>
    have hn : n = 0 := by simpa [strOrFalsyB, jsTruthy] using h
    subst hn
    rfl
  | arr l => simp [strOrFalsyB, jsTruthy] at h
  | obj fields => simp [strOrFalsyB, jsTruthy] at h

/-- C3 (amended): normalization is total on every payload except those the
dynamic semantics genuinely throws on — the payload itself must not be
`null`/`undefined` (property access on those throws), and the free-text
cart field must be a string or falsy (a truthy non-string throws in
`parseCartText`).  Under those conditions `parseOrderData` always returns a
canonical order object; in particular a malformed structured line-items
field falls back to free-text parsing rather than failing. -/
theorem normalize_total (payload : JSValue) (hp1 : payload ≠ .null)
    (hp2 : payload ≠ .undefined)
    (hcart : strOrFalsyB (jsField payload "quote[Cart]") = true) :
    ∃ od, parseOrderData payload = .ok od := by
  have hg : ∀ k, getField payload k = .ok (jsField payload k) :=
    fun k => getField_ok payload k hp1 hp2
  rw [parseOrderData]
  simp only [hg, exceptOk_bind]
  by_cases h1 : jsTruthy (jsField payload "quote[cart_line_items]") = true
  · rw [if_pos h1]
    cases hjm : jsonParseJS (jsField payload "quote[cart_line_items]") >>= mapLineItems with
    | ok items => exact ⟨_, rfl⟩
    | error e =>
      rw [parseCartTextJS_ok _ hcart]
      exact ⟨_, rfl⟩
  · rw [if_neg h1]
    by_cases h2 : jsTruthy (jsField payload "quote[Cart]") = true
    · rw [if_pos h2, parseCartTextJS_ok _ hcart]
      exact ⟨_, rfl⟩
    · rw [if_neg h2]
      exact ⟨_, rfl⟩

/-- C3 witness: a concrete well-behaved payload normalizes successfully. -/
theorem normalize_total_witness :
    ∃ od, parseOrderData (.obj [("quote[email]", .str "a@b.c")]) = .ok od :=
  normalize_total _ (fun h => JSValue.noConfusion h) (fun h => JSValue.noConfusion h) rfl

/-- C3 counterexample: the claim quantifies over every payload value, but a
`null` payload makes the very first property access of `parseOrderData`
throw a `TypeError` (modelled as `Except.error`), so normalization is not
total as claimed. -/
theorem normalize_raises_on_null : parseOrderData JSValue.null = .error () := rfl

/-! ## Empty-cart and structured-fallback behavior -/

/-- C9 (amended): when both the structured line-items field and the
free-text cart are falsy (absent), `parseOrderData` succeeds and leaves the
`lineItems` property unassigned (`undefined`, modelled `none`) — it does
not produce an empty sequence. -/
theorem normalize_absent_cart_lineitems_unassigned (payload : JSValue)
    (hp1 : payload ≠ .null) (hp2 : payload ≠ .undefined)
    (h1 : jsTruthy (jsField payload "quote[cart_line_items]") = false)
    (h2 : jsTruthy (jsField payload "quote[Cart]") = false) :
    Except.map OrderData.lineItems (parseOrderData payload) = .ok none := by
  have hg : ∀ k, getField payload k = .ok (jsField payload k) :=
    fun k => getField_ok payload k hp1 hp2
  rw [parseOrderData]
  simp only [hg, exceptOk_bind]
  rw [if_neg (by rw [h1]; exact Bool.false_ne_true),
    if_neg (by rw [h2]; exact Bool.false_ne_true)]
  rfl

/-- C9 witness: the empty payload normalizes with no `lineItems` field. -/
theorem normalize_absent_cart_lineitems_unassigned_witness :
    Except.map OrderData.lineItems (parseOrderData (.obj [])) = .ok none :=
  normalize_absent_cart_lineitems_unassigned _ (fun h => JSValue.noConfusion h)
    (fun h => JSValue.noConfusion h) rfl rfl

/-- C9 counterexample: for the empty payload the normalized object carries
no line-item sequence at all (`lineItems` is `undefined`/`none`), which is
distinct from the empty sequence the claim asserts. -/
theorem normalize_absent_cart_not_empty_list :
    Except.map OrderData.lineItems (parseOrderData (.obj [])) = .ok none ∧
    (Except.ok none : Except Unit (Option (List LineItemJS))) ≠
      .ok (some []) := by
  refine ⟨rfl, ?_⟩
  intro h
  simp at h

/-- C10 (amended): the structured-JSON fallback is broader than invalid
JSON — when the structured field is a truthy string that parses but whose
mapping to line items throws (non-array value, or an array containing
`null`), `parseOrderData` does not fail, provided the free-text cart field
is a string or falsy (a truthy non-string cart value makes the fallback
itself throw); the line items then come from the free-text cart exactly as
in the invalid-JSON case. -/
theorem normalize_fallback_on_unmappable_json (payload : JSValue) (s : String)
    (j : JSValue) (hp1 : payload ≠ .null) (hp2 : payload ≠ .undefined)
    (hcli : jsField payload "quote[cart_line_items]" = .str s) (hs : s ≠ "")
    (hjson : jsonParseStr s = .ok j) (hmap : mapLineItems j = .error ())
    (hcart : strOrFalsyB (jsField payload "quote[Cart]") = true) :
    Except.map OrderData.lineItems (parseOrderData payload) =
      .ok (some (cartItemsOf (jsField payload "quote[Cart]"))) := by
  have hg : ∀ k, getField payload k = .ok (jsField payload k) :=
    fun k => getField_ok payload k hp1 hp2
  rw [parseOrderData]
  simp only [hg, exceptOk_bind]
  rw [hcli, if_pos (by simp [jsTruthy, hs])]
  have hb : jsonParseJS (.str s) >>= mapLineItems = .error () := by
    show jsonParseStr s >>= mapLineItems = .error ()
    rw [hjson]
    show mapLineItems j = .error ()
    exact hmap
  rw [hb, parseCartTextJS_ok _ hcart]
  rfl

/-- C10 witness: a payload whose structured field parses to `[null]` (valid
JSON whose mapping throws) falls back to the free-text cart. -/
theorem normalize_fallback_on_unmappable_json_witness :
    Except.map OrderData.lineItems (parseOrderData
      (.obj [("quote[cart_line_items]", .str "[null]"),
        ("quote[Cart]", .str "2 × W $3")])) =
      .ok (some (cartItemsOf (jsField
        (.obj [("quote[cart_line_items]", .str "[null]"),
          ("quote[Cart]", .str "2 × W $3")]) "quote[Cart]"))) :=
  normalize_fallback_on_unmappable_json _ "[null]" (.arr [.null])
    (fun h => JSValue.noConfusion h) (fun h => JSValue.noConfusion h) rfl
    (by decide) rfl rfl rfl

/-- C10 counterexample: the claim promises that normalization never fails in
the parse-ok-but-mapping-throws case, but when the free-text cart field is
a truthy non-string (here the number 7) the fallback call
`parseCartText(7)` throws on `.split`, and `parseOrderData` fails. -/
theorem normalize_fallback_raises_on_nonstring_cart :
    parseOrderData
      (.obj [("quote[cart_line_items]", .str "5"), ("quote[Cart]", .num 7)]) =
      .error () := rfl

/-! ## Free-text cart derivation -/

/-- The item lines of a cart text: exactly the lines containing both the
multiplication marker and the currency marker. -/
def cartItemLines (s : String) : List (List Char) :=
  if s = "" then []
  else (splitLines s.data).filter
    (fun line => lineHasChar line timesChar && lineHasChar line '$')

/-- C8: free-text line-item derivation.  Exactly the lines containing both
`×` and `$` become line items, in order; every item carries the fixed
fallback variant identifier, and its quantity is the integer matched before
the multiplication marker (1 when there is no match).  In particular the
cart text `"2 × Widget $10.00\n1 × Gadget $5.00"` yields exactly two items
with quantities 2 and 1. -/
theorem parseCartText_derivation :
    parseCartText "2 × Widget $10.00\n1 × Gadget $5.00" =
      [⟨.str defaultVariantId, .num 2⟩, ⟨.str defaultVariantId, .num 1⟩] ∧
    (∀ s, (parseCartText s).map LineItemJS.variantId =
      List.replicate (cartItemLines s).length (.str defaultVariantId)) ∧
    (∀ s, (parseCartText s).map LineItemJS.quantity =
      (cartItemLines s).map (fun l => .num (Int.ofNat ((qtyScan l).getD 1)))) := by
  refine ⟨rfl, ?_, ?_⟩
  · intro s
    rw [parseCartText, cartItemLines]
    by_cases hs : s = ""
    · rw [if_pos hs, if_pos hs]
      rfl
    · rw [if_neg hs, if_neg hs, List.map_map]
      exact List.map_const' _ _
  · intro s
    rw [parseCartText, cartItemLines]
    by_cases hs : s = ""
    · rw [if_pos hs, if_pos hs]
      rfl
    · rw [if_neg hs, if_neg hs, List.map_map]
      rfl

/-! ## Validation of the SHA-256/HMAC model against standard test vectors -/

set_option maxRecDepth 40000 in
example : String.mk (hexChars 64 (natOfBytes (sha256 (strBytes "abc")))) =
    "ba7816bf8f01cfea414140de5dae2223b00361a396177a9cb410ff61f20015ad" := by decide

set_option maxRecDepth 40000 in
example : String.mk (hexChars 64 (natOfBytes (sha256 (strBytes "")))) =
    "e3b0c44298fc1c149afbf4c8996fb92427ae41e4649b934ca495991b7852b855" := by decide

set_option maxRecDepth 40000 in
example : hmacHex "key" "The quick brown fox jumps over the lazy dog" =
    "f7bc83f430538424b13298e6aa6fb143ef4d59a14946175997479dbc2d1a3cd8" := by decide
